import Mathlib

/-!
Verification of the caching layer and the interactive loop of
`proj2_nps.py` (a national-parks scraper with an on-disk JSON cache).

The embedding models:
* JSON documents (`JVal`) as produced by Python's `json.loads`/`json.dumps`;
* the on-disk cache file (`DiskFile`), including the read failures the
  bare `except:` in `open_cache` swallows;
* the cache primitives `open_cache`, `save_cache`, `construct_unique_key`,
  `make_request_with_cache`, and the places-API path `get_nearby_places`,
  each instrumented with the observable effects (network calls, disk
  reads and writes) the claims talk about;
* the `__main__` prompt loop as a step function over user inputs.
-/

namespace NPS

/-- A JSON value, as produced by Python's `json.loads` and consumed by
`json.dumps`.  Objects are modelled as their insertion-ordered item
lists, matching dict iteration order. -/
inductive JVal where
  | str (s : String)
  | num (n : Int)
  | bool (b : Bool)
  | null
  | arr (elems : List JVal)
  | obj (kvs : List (String × JVal))

/-- True exactly when the top-level JSON value is an object (a Python
dict after `json.loads`). -/
def JVal.isObj : JVal → Bool
  | .obj _ => true
  | _ => false

/-- States of the on-disk cache file `CACHE_FILENAME`.  `absent`,
`unreadable` and `malformed` are the three read failures (missing file,
undecodable contents, invalid JSON) that the bare `except:` in
`open_cache` turns into an empty dict; `stored doc` is a readable file
holding the JSON document `doc`. -/
inductive DiskFile where
  | absent
  | unreadable
  | malformed
  | stored (doc : JVal)

/-- Membership test `k in d.keys()` on a Python dict modelled by its
item list. -/
def objMem (k : String) (kvs : List (String × JVal)) : Bool :=
  kvs.any (fun p => p.1 == k)

/-- Lookup `d[k]`, defaulting to `null` when the key is absent (Python
would raise there; the sources only look up keys they tested for). -/
def objGetD (k : String) (kvs : List (String × JVal)) : JVal :=
  match kvs.find? (fun p => p.1 == k) with
  | some p => p.2
  | none => JVal.null

/-- Assignment `d[k] = v` on a Python dict: replace in place when the
key exists, otherwise append the new item at the end. -/
def objInsert (k : String) (v : JVal) (kvs : List (String × JVal)) :
    List (String × JVal) :=
  if objMem k kvs then kvs.map (fun p => if p.1 == k then (k, v) else p)
  else kvs ++ [(k, v)]

/-- `open_cache` (proj2_nps.py lines 15-35): read the cache file and
`json.loads` it; any failure is caught by the bare `except:` and the
empty dict is returned instead.  The function is total: no error ever
reaches the caller.  Note that a readable well-formed document is
returned as parsed, whether or not its top level is an object. -/
def open_cache : DiskFile → JVal
  | .absent => .obj []
  | .unreadable => .obj []
  | .malformed => .obj []
  | .stored doc => doc

/-- `save_cache` (lines 38-53): `json.dumps` the whole store and write
it to the cache file, fully overwriting any previous contents.  The
resulting disk state is independent of the previous one. -/
def save_cache (cache_dict : JVal) : DiskFile :=
  .stored cache_dict

/-- Lexicographic code-point comparison of character lists: Python's
`<=` on strings, the order used by `param_strings.sort()`. -/
def charListLe : List Char → List Char → Bool
  | [], _ => true
  | _ :: _, [] => false
  | a :: as, b :: bs =>
    if a.toNat = b.toNat then charListLe as bs
    else decide (a.toNat < b.toNat)

/-- Python string comparison `a <= b` on Lean strings. -/
def strLeB (a b : String) : Bool := charListLe a.data b.data

/-- The sort order of `param_strings.sort()`, as a binary relation. -/
def keyLe (a b : String) : Prop := strLeB a b = true

instance : DecidableRel keyLe :=
  fun a b => inferInstanceAs (Decidable (strLeB a b = true))

/-- Python's `connector.join(strings)`. -/
def joinWith (connector : String) : List String → String
  | [] => ""
  | [s] => s
  | s :: s2 :: rest => s ++ connector ++ joinWith connector (s2 :: rest)

/-- `construct_unique_key` (lines 55-77): render each dict item as
`"k_v"` (iterating the dict in insertion order), sort the rendered
strings, join them with the connector `"_"`, and prepend the base URL
followed by the connector. -/
def construct_unique_key (baseurl : String) (params : List (String × String)) :
    String :=
  let connector := "_"
  let param_strings := params.map (fun p => p.1 ++ "_" ++ p.2)
  let sorted := List.insertionSort keyLe param_strings
  baseurl ++ connector ++ joinWith connector sorted

/-- Observable outcome of one `make_request_with_cache` call: the value
returned to the caller, the on-disk file after the call, the URLs
fetched over the network (in order), and the number of whole-file disk
reads and writes performed. -/
structure FetchResult where
  body : JVal
  disk : DiskFile
  netCalls : List String
  diskReads : Nat
  diskWrites : Nat

/-- `make_request_with_cache` (lines 79-103).  `net` maps a URL to the
text an HTTP GET would return.  The store is reloaded from disk on
every call; on a hit the stored value is returned as is, on a miss the
raw response text is fetched, inserted under `baseurl`, and the whole
store is persisted.  When the loaded document is not a dict, the
attribute access `CACHE_DICT.keys()` raises, modelled as `.error`. -/
def make_request_with_cache (baseurl : String) (net : String → String)
    (disk : DiskFile) : Except String FetchResult :=
  match open_cache disk with
  | .obj kvs =>
    if objMem baseurl kvs then
      .ok ⟨objGetD baseurl kvs, disk, [], 1, 0⟩
    else
      let body := JVal.str (net baseurl)
      let kvs2 := objInsert baseurl body kvs
      .ok ⟨body, save_cache (.obj kvs2), [baseurl], 1, 1⟩
  | _ => .error "AttributeError: keys"

/-- The MapQuest endpoint hardcoded in `get_nearby_places`. -/
def MAPQUEST_URL : String := "http://www.mapquestapi.com/search/v2/radius"

/-- The `params` dict built in `get_nearby_places` (lines 230-231). -/
def placesParams (apiKey zipcode : String) : List (String × JVal) :=
  [("key", .str apiKey), ("origin", .str zipcode), ("radius", .num 10),
   ("maxMatches", .num 10), ("ambiguities", .str "ignore"),
   ("outFormat", .str "json")]

/-- Observable outcome of one `get_nearby_places` call: the response
returned, the final value of the in-memory `CACHE_DICT`, the on-disk
file after the call, the parameterized network calls made, and the
number of disk reads and writes. -/
structure PlacesResult where
  response : JVal
  memStore : JVal
  disk : DiskFile
  netCalls : List (String × List (String × JVal))
  diskReads : Nat
  diskWrites : Nat

/-- `get_nearby_places` (lines 216-241): reload the store, look it up
keyed by the site's zipcode alone; on a miss issue a parameterized GET,
parse the JSON response and insert the parsed object into the in-memory
`CACHE_DICT` only.  There is no `save_cache` call on this path, so the
disk state passes through unchanged. -/
def get_nearby_places (zipcode apiKey : String)
    (net : String → List (String × JVal) → JVal) (disk : DiskFile) :
    Except String PlacesResult :=
  match open_cache disk with
  | .obj kvs =>
    if objMem zipcode kvs then
      .ok ⟨objGetD zipcode kvs, .obj kvs, disk, [], 1, 0⟩
    else
      let response := net MAPQUEST_URL (placesParams apiKey zipcode)
      .ok ⟨response, .obj (objInsert zipcode response kvs), disk,
           [(MAPQUEST_URL, placesParams apiKey zipcode)], 1, 0⟩
  | _ => .error "AttributeError: keys"

/-- Modelled from the spec: the reference `RequestKey` construction of
spec.md section 3 (each parameter rendered as `"key_value"`, the
rendered strings sorted lexicographically, joined with `_`, and the
whole prepended with the base URL and a separator).  Stated separately
from `construct_unique_key` so that claim C7 can compare the two. -/
def buildKeySpec (baseurl : String) (params : List (String × String)) : String :=
  baseurl ++ "_" ++
    joinWith "_"
      (List.insertionSort keyLe (params.map (fun p => p.1 ++ "_" ++ p.2)))

/-- Python's `str.lower()` (the sources only lower ASCII input). -/
def lower (s : String) : String := ⟨s.data.map Char.toLower⟩

/-- Python's `str.isnumeric()` restricted to ASCII digit strings, which
is all `int(...)` accepts anyway. -/
def isnumeric (s : String) : Bool := !s.data.isEmpty && s.data.all Char.isDigit

/-- Python's `int()` on a digit string. -/
def pyInt (s : String) : Nat :=
  s.data.foldl (fun n c => n * 10 + (c.toNat - 48)) 0

/-- Where the `__main__` loop (lines 244-298) is between prompts: at the
state prompt, or at the site-number prompt with `n` sites listed. -/
inductive CLIMode where
  | stateSel
  | siteSel (n : Nat)
  deriving DecidableEq

/-- The data the loop consults: `states_dict` (lower-cased state name to
state URL) and, per state URL, how many sites `get_sites_for_state`
lists. -/
structure CLIEnv where
  statesDict : List (String × String)
  sitesFor : String → Nat

/-- The printed reactions of the loop that the claims mention. -/
inductive CLIEvent where
  | listedSites (url : String)
  | showedPlaces (idx : Nat)
  | errorBadState
  | errorInvalidNumber
  | errorOther
  deriving DecidableEq

/-- Lookup `d[k]` in a string-to-string dict, as an option. -/
def lookupStr (k : String) (l : List (String × String)) : Option String :=
  match l.find? (fun p => p.1 == k) with
  | some p => some p.2
  | none => none

/-- One prompt/response step of the `__main__` loop.  Returns `none`
when the program terminates, otherwise the next mode, together with the
printed events.  At the site prompt the input `"exit"` sets `temp = 1`
and breaks the inner loop, but `temp` is never read afterwards, so
control falls back to the outer loop's state prompt, exactly as for
`"back"`. -/
def cliStep (env : CLIEnv) : CLIMode → String → Option CLIMode × List CLIEvent
  | .stateSel, inp =>
    let State := lower inp
    if State == "exit" then (none, [])
    else
      match lookupStr State env.statesDict with
      | some url => (some (.siteSel (env.sitesFor url)), [.listedSites url])
      | none => (some .stateSel, [.errorBadState])
  | .siteSel n, inp =>
    let input_number := lower inp
    if input_number == "exit" then (some .stateSel, [])
    else if input_number == "back" then (some .stateSel, [])
    else if isnumeric input_number then
      if 0 < pyInt input_number && pyInt input_number ≤ n then
        (some (.siteSel n), [.showedPlaces (pyInt input_number)])
      else (some (.siteSel n), [.errorInvalidNumber])
    else (some (.siteSel n), [.errorOther])

/-- Run the loop on a list of user inputs.  The first component is
`none` when the program terminated before exhausting the inputs, and
`some m` when the loop is in mode `m` awaiting further input; the second
component collects all printed events in order. -/
def runCLI (env : CLIEnv) : CLIMode → List String → Option CLIMode × List CLIEvent
  | m, [] => (some m, [])
  | m, inp :: rest =>
    match cliStep env m inp with
    | (none, evs) => (none, evs)
    | (some m2, evs) =>
      let r := runCLI env m2 rest
      (r.1, evs ++ r.2)

/-- A concrete environment with one state and three listed sites, used
to exercise the loop on concrete input sequences. -/
def envEx : CLIEnv :=
  ⟨[("michigan", "https://www.nps.gov/state/mi/index.htm")], fun _ => 3⟩

/-- The string `s` contains no underscore character. -/
def underscoreFree (s : String) : Prop := '_' ∉ s.data

/-- Every key and every value of the parameter mapping is
underscore-free. -/
def paramsUF (P : List (String × String)) : Prop :=
  ∀ p ∈ P, underscoreFree p.1 ∧ underscoreFree p.2

instance : DecidablePred paramsUF := fun P =>
  inferInstanceAs (Decidable (∀ p ∈ P, ('_' ∉ p.1.data) ∧ ('_' ∉ p.2.data)))

/-- `joinWith "_"` at the character-list level. -/
def jnChars : List (List Char) → List Char
  | [] => []
  | [x] => x
  | x :: y :: rest => x ++ '_' :: jnChars (y :: rest)

/-- A character list of the shape `a ++ '_' :: b` with `a` and `b`
underscore-free: the character-level image of a rendered `"key_value"`
string whose key and value are underscore-free. -/
def goodChunk (x : List Char) : Prop :=
  ∃ a b, '_' ∉ a ∧ '_' ∉ b ∧ x = a ++ '_' :: b

/-- The code-point comparison is total. -/
theorem charListLe_total : ∀ (a b : List Char),
    charListLe a b = true ∨ charListLe b a = true
  | [], _ => Or.inl rfl
  | _ :: _, [] => Or.inr rfl
  | a :: as, b :: bs => by
    by_cases h : a.toNat = b.toNat
    · rcases charListLe_total as bs with ih | ih
      · exact Or.inl (by simp [charListLe, h, ih])
      · exact Or.inr (by simp [charListLe, h.symm, ih])
    · rcases Nat.lt_or_ge a.toNat b.toNat with hlt | hge
      · exact Or.inl (by simp [charListLe, h, hlt])
      · have hba : ¬ b.toNat = a.toNat := fun e => h e.symm
        have hlt : b.toNat < a.toNat :=
          Nat.lt_of_le_of_ne hge (fun e => h e.symm)
        exact Or.inr (by simp [charListLe, hba, hlt])

/-- The code-point comparison is transitive. -/
theorem charListLe_trans : ∀ (a b c : List Char), charListLe a b = true →
    charListLe b c = true → charListLe a c = true
  | [], _, _, _, _ => rfl
  | _ :: _, [], _, h, _ => by simp [charListLe] at h
  | _ :: _, _ :: _, [], _, h => by simp [charListLe] at h
  | a :: as, b :: bs, c :: cs, h1, h2 => by
    by_cases hab : a.toNat = b.toNat <;> by_cases hbc : b.toNat = c.toNat
    · have hac : a.toNat = c.toNat := hab.trans hbc
      simp only [charListLe, if_pos hab] at h1
      simp only [charListLe, if_pos hbc] at h2
      simp only [charListLe, if_pos hac]
      exact charListLe_trans as bs cs h1 h2
    · simp only [charListLe, if_neg hbc, decide_eq_true_eq] at h2
      have hac : a.toNat < c.toNat := hab ▸ h2
      simp only [charListLe, if_neg (Nat.ne_of_lt hac), decide_eq_true_eq]
      exact hac
    · simp only [charListLe, if_neg hab, decide_eq_true_eq] at h1
      have hac : a.toNat < c.toNat := hbc ▸ h1
      simp only [charListLe, if_neg (Nat.ne_of_lt hac), decide_eq_true_eq]
      exact hac
    · simp only [charListLe, if_neg hab, decide_eq_true_eq] at h1
      simp only [charListLe, if_neg hbc, decide_eq_true_eq] at h2
      have hac : a.toNat < c.toNat := Nat.lt_trans h1 h2
      simp only [charListLe, if_neg (Nat.ne_of_lt hac), decide_eq_true_eq]
      exact hac

/-- The code-point comparison is antisymmetric. -/
theorem charListLe_antisymm : ∀ (a b : List Char), charListLe a b = true →
    charListLe b a = true → a = b
  | [], [], _, _ => rfl
  | [], _ :: _, _, h => by simp [charListLe] at h
  | _ :: _, [], h, _ => by simp [charListLe] at h
  | a :: as, b :: bs, h1, h2 => by
    by_cases hab : a.toNat = b.toNat
    · have hav : a = b := Char.ext (UInt32.toNat.inj hab)
      simp only [charListLe, if_pos hab] at h1
      simp only [charListLe, if_pos (hab.symm)] at h2
      rw [hav, charListLe_antisymm as bs h1 h2]
    · have hba : ¬ b.toNat = a.toNat := fun e => hab e.symm
      simp only [charListLe, if_neg hab, decide_eq_true_eq] at h1
      simp only [charListLe, if_neg hba, decide_eq_true_eq] at h2
      exact absurd h2 (Nat.lt_asymm h1)

/-- Sorting two permuted lists with the Python string order yields the
same list. -/
theorem insertionSort_perm_eq (l1 l2 : List String) (h : l1.Perm l2) :
    List.insertionSort keyLe l1 = List.insertionSort keyLe l2 := by
  haveI : IsTotal String keyLe := ⟨fun a b => charListLe_total a.data b.data⟩
  haveI : IsTrans String keyLe :=
    ⟨fun a b c => charListLe_trans a.data b.data c.data⟩
  haveI : IsAntisymm String keyLe :=
    ⟨fun a b hab hba => String.ext (charListLe_antisymm a.data b.data hab hba)⟩
  exact List.eq_of_perm_of_sorted
    ((List.perm_insertionSort _ _).trans (h.trans (List.perm_insertionSort _ _).symm))
    (List.sorted_insertionSort _ _) (List.sorted_insertionSort _ _)

/-- After a miss-path insertion the key is present. -/
theorem objMem_objInsert_self (k : String) (v : JVal)
    (kvs : List (String × JVal)) (h : objMem k kvs = false) :
    objMem k (objInsert k v kvs) = true := by
  have h' : ¬ (objMem k kvs = true) := by simp [h]
  rw [objInsert, if_neg h']
  simp [objMem, List.any_append]

/-- After a miss-path insertion the stored value is the inserted one. -/
theorem objGetD_objInsert_self (k : String) (v : JVal)
    (kvs : List (String × JVal)) (h : objMem k kvs = false) :
    objGetD k (objInsert k v kvs) = v := by
  have hall : ∀ p ∈ kvs, ¬ (p.1 == k) = true := by
    simpa [objMem, List.any_eq_true] using h
  have hnone : kvs.find? (fun p => p.1 == k) = none :=
    List.find?_eq_none.mpr hall
  have h' : ¬ (objMem k kvs = true) := by simp [h]
  rw [objInsert, if_neg h']
  simp [objGetD, List.find?_append, hnone]

/-- Cancellation around the first underscore: two decompositions of one
character list around an underscore, with underscore-free prefixes,
agree. -/
theorem chunk_split : ∀ {x y xs ys : List Char}, '_' ∉ x → '_' ∉ y →
    x ++ '_' :: xs = y ++ '_' :: ys → x = y ∧ xs = ys := by
  intro x
  induction x with
  | nil =>
    intro y xs ys _ hy h
    cases y with
    | nil => simpa using h
    | cons b bs =>
      simp only [List.nil_append, List.cons_append, List.cons.injEq] at h
      exact absurd (List.mem_cons_self b bs) (h.1 ▸ hy)
  | cons a as ih =>
    intro y xs ys hx hy h
    cases y with
    | nil =>
      simp only [List.nil_append, List.cons_append, List.cons.injEq] at h
      exact absurd (List.mem_cons_self a as) (h.1.symm ▸ hx)
    | cons b bs =>
      simp only [List.cons_append, List.cons.injEq] at h
      have hx' : '_' ∉ as := fun hm => hx (List.mem_cons_of_mem a hm)
      have hy' : '_' ∉ bs := fun hm => hy (List.mem_cons_of_mem b hm)
      obtain ⟨h1, h2⟩ := ih hx' hy' h.2
      exact ⟨by rw [h.1, h1], h2⟩

/-- `jnChars` of a nonempty list of good chunks is nonempty. -/
theorem jnChars_cons_ne_nil : ∀ {x : List Char} {l : List (List Char)},
    goodChunk x → jnChars (x :: l) ≠ [] := by
  intro x l hx
  obtain ⟨a, b, _, _, rfl⟩ := hx
  cases l with
  | nil => simp [jnChars]
  | cons y r => simp [jnChars]

/-- `jnChars` is injective on lists of good chunks (each chunk carries
exactly one underscore, so the joined list can be split back). -/
theorem jnChars_inj : ∀ {l1 l2 : List (List Char)},
    (∀ x ∈ l1, goodChunk x) → (∀ x ∈ l2, goodChunk x) →
    jnChars l1 = jnChars l2 → l1 = l2 := by
  intro l1
  induction l1 with
  | nil =>
    intro l2 _ h2 h
    cases l2 with
    | nil => rfl
    | cons y r =>
      exact absurd h.symm (jnChars_cons_ne_nil (h2 y (List.mem_cons_self y r)))
  | cons x l1' ih =>
    intro l2 h1 h2 h
    cases l2 with
    | nil =>
      exact absurd h (jnChars_cons_ne_nil (h1 x (List.mem_cons_self x l1')))
    | cons y l2' =>
      obtain ⟨a, b, ha, hb, hx⟩ := h1 x (List.mem_cons_self x l1')
      obtain ⟨c, d, hc, hd, hy⟩ := h2 y (List.mem_cons_self y l2')
      cases l1' with
      | nil =>
        cases l2' with
        | nil => simpa [jnChars] using h
        | cons z r2 =>
          rw [jnChars, jnChars, hx, hy] at h
          rw [List.append_assoc] at h
          have h' :
              a ++ '_' :: b = c ++ '_' :: (d ++ '_' :: jnChars (z :: r2)) := by
            simpa using h
          obtain ⟨-, hbd⟩ := chunk_split ha hc h'
          have : '_' ∈ d ++ '_' :: jnChars (z :: r2) :=
            List.mem_append_right d (List.mem_cons_self _ _)
          exact absurd (hbd ▸ this) hb
      | cons w r1 =>
        cases l2' with
        | nil =>
          rw [jnChars, jnChars, hx, hy] at h
          rw [List.append_assoc] at h
          have h' :
              a ++ '_' :: (b ++ '_' :: jnChars (w :: r1)) = c ++ '_' :: d := by
            simpa using h
          obtain ⟨-, hbd⟩ := chunk_split ha hc h'
          have : '_' ∈ b ++ '_' :: jnChars (w :: r1) :=
            List.mem_append_right b (List.mem_cons_self _ _)
          exact absurd (hbd ▸ this) hd
        | cons z r2 =>
          rw [jnChars, jnChars, hx, hy] at h
          rw [List.append_assoc, List.append_assoc] at h
          have h' :
              a ++ '_' :: (b ++ '_' :: jnChars (w :: r1)) =
                c ++ '_' :: (d ++ '_' :: jnChars (z :: r2)) := by
            simpa using h
          obtain ⟨hac, h''⟩ := chunk_split ha hc h'
          obtain ⟨hbd, hjn⟩ := chunk_split hb hd h''
          have htail : (w :: r1) = (z :: r2) :=
            ih (fun u hu => h1 u (List.mem_cons_of_mem x hu))
               (fun u hu => h2 u (List.mem_cons_of_mem y hu)) hjn
          rw [hx, hy, hac, hbd, htail]

/-- `joinWith "_"` agrees with `jnChars` on the underlying character
lists. -/
theorem joinWith_data : ∀ (l : List String),
    (joinWith "_" l).data = jnChars (l.map String.data)
  | [] => rfl
  | [s] => rfl
  | s :: s2 :: rest => by
    have ih := joinWith_data (s2 :: rest)
    have hu : ("_" : String).data = ['_'] := rfl
    simp only [joinWith, List.map, jnChars, String.data_append, hu, ih,
      List.append_assoc, List.singleton_append]

/-- The character data of a rendered parameter string. -/
theorem render_data (p : String × String) :
    (p.1 ++ "_" ++ p.2).data = p.1.data ++ '_' :: p.2.data := by
  have hu : ("_" : String).data = ['_'] := rfl
  simp only [String.data_append, hu, List.append_assoc, List.singleton_append]

/-- A rendered underscore-free parameter is a good chunk. -/
theorem render_goodChunk {p : String × String} (h1 : '_' ∉ p.1.data)
    (h2 : '_' ∉ p.2.data) : goodChunk (p.1 ++ "_" ++ p.2).data :=
  ⟨p.1.data, p.2.data, h1, h2, render_data p⟩

/-- Rendering is injective on underscore-free parameters. -/
theorem render_inj {p q : String × String}
    (hp1 : '_' ∉ p.1.data) (hq1 : '_' ∉ q.1.data)
    (h : p.1 ++ "_" ++ p.2 = q.1 ++ "_" ++ q.2) : p = q := by
  have hd := congrArg String.data h
  rw [render_data, render_data] at hd
  obtain ⟨h1, h2⟩ := chunk_split hp1 hq1 hd
  obtain ⟨p1, p2⟩ := p
  obtain ⟨q1, q2⟩ := q
  simp only [Prod.mk.injEq]
  exact ⟨String.ext h1, String.ext h2⟩

/-- If the rendered parameter strings of two underscore-free mappings
are permutations of one another, the mappings themselves are. -/
theorem perm_of_render_perm : ∀ (P1 P2 : List (String × String)),
    paramsUF P1 → paramsUF P2 →
    (P1.map (fun p => p.1 ++ "_" ++ p.2)).Perm
      (P2.map (fun p => p.1 ++ "_" ++ p.2)) →
    P1.Perm P2
  | [], P2, _, _, h => by
    have h2 : P2.map (fun p => p.1 ++ "_" ++ p.2) = [] :=
      List.Perm.eq_nil h.symm
    have : P2 = [] := List.map_eq_nil_iff.mp h2
    rw [this]
  | p :: t, P2, h1, h2, h => by
    have hmem : (p.1 ++ "_" ++ p.2) ∈ P2.map (fun q => q.1 ++ "_" ++ q.2) :=
      h.mem_iff.mp (List.mem_cons_self _ _)
    obtain ⟨q, hq, hqe⟩ := List.mem_map.mp hmem
    have hqp : q = p :=
      render_inj (h2 q hq).1 (h1 p (List.mem_cons_self p t)).1 hqe
    obtain ⟨s, t2, rfl⟩ := List.append_of_mem hq
    subst hqp
    simp only [List.map_append, List.map_cons] at h
    have h' : (t.map (fun r => r.1 ++ "_" ++ r.2)).Perm
        (((s ++ t2).map (fun r => r.1 ++ "_" ++ r.2))) := by
      have hmid := h.trans List.perm_middle
      rw [List.map_append]
      exact hmid.cons_inv
    have htail : t.Perm (s ++ t2) :=
      perm_of_render_perm t (s ++ t2)
        (fun u hu => h1 u (List.mem_cons_of_mem _ hu))
        (fun u hu => by
          rcases List.mem_append.mp hu with hl | hr
          · exact h2 u (List.mem_append_left _ hl)
          · exact h2 u (List.mem_append_right _ (List.mem_cons_of_mem _ hr)))
        h'
    exact (htail.cons _).trans List.perm_middle.symm

/-- C1: `make_request_with_cache u` loads the store from disk; when `u`
is a key it returns the stored body with zero network calls; when it is
not, it performs exactly one GET against `u`, stores the raw response
body under the exact key `u`, persists the whole store to disk, and
returns that body; a subsequent call with the same `u` (under any
network behavior) then returns the previously stored body verbatim with
zero network calls. -/
theorem make_request_with_cache_contract (u : String)
    (net net2 : String → String) (d : DiskFile)
    (kvs : List (String × JVal)) (hload : open_cache d = JVal.obj kvs) :
    (objMem u kvs = true →
      make_request_with_cache u net d = .ok ⟨objGetD u kvs, d, [], 1, 0⟩) ∧
    (objMem u kvs = false →
      make_request_with_cache u net d =
        .ok ⟨.str (net u),
             DiskFile.stored (.obj (objInsert u (.str (net u)) kvs)),
             [u], 1, 1⟩ ∧
      make_request_with_cache u net2
          (DiskFile.stored (.obj (objInsert u (.str (net u)) kvs))) =
        .ok ⟨.str (net u),
             DiskFile.stored (.obj (objInsert u (.str (net u)) kvs)),
             [], 1, 0⟩) := by
  constructor
  · intro hmem
    rw [make_request_with_cache, hload]
    simp [hmem]
  · intro hmem
    constructor
    · rw [make_request_with_cache, hload]
      simp [hmem, save_cache]
    · rw [make_request_with_cache]
      simp only [open_cache]
      simp [objMem_objInsert_self u (.str (net u)) kvs hmem,
        objGetD_objInsert_self u (.str (net u)) kvs hmem]

/-- Witness for C1: on an empty store, fetching `"u"` performs the one
network call, persists the entry, and a second call is a cache hit
returning the same body with no network call. -/
theorem make_request_with_cache_contract_witness :
    make_request_with_cache "u" (fun _ => "BODY") (DiskFile.stored (.obj [])) =
      .ok ⟨.str "BODY", DiskFile.stored (.obj [("u", .str "BODY")]),
           ["u"], 1, 1⟩ ∧
    make_request_with_cache "u" (fun _ => "OTHER")
        (DiskFile.stored (.obj [("u", .str "BODY")])) =
      .ok ⟨.str "BODY", DiskFile.stored (.obj [("u", .str "BODY")]),
           [], 1, 0⟩ := by
  have h := (make_request_with_cache_contract "u" (fun _ => "BODY")
    (fun _ => "OTHER") (DiskFile.stored (.obj [])) [] rfl).2 rfl
  constructor
  · have h1 := h.1
    simpa [objInsert, objMem] using h1
  · have h2 := h.2
    simpa [objInsert, objMem] using h2

/-- C2: whenever the cache file is missing, unreadable, or holds
malformed JSON, `open_cache` returns the empty store; being a total
function, it never propagates an error to the caller. -/
theorem open_cache_fail_open :
    open_cache DiskFile.absent = JVal.obj [] ∧
    open_cache DiskFile.unreadable = JVal.obj [] ∧
    open_cache DiskFile.malformed = JVal.obj [] :=
  ⟨rfl, rfl, rfl⟩

/-- C3: `construct_unique_key` is invariant under permuting the
parameter mapping: two mappings with the same key/value pairs in any
insertion order produce the same key. -/
theorem construct_unique_key_perm_invariant (u : String)
    (P1 P2 : List (String × String)) (h : P1.Perm P2) :
    construct_unique_key u P1 = construct_unique_key u P2 := by
  simp only [construct_unique_key]
  rw [insertionSort_perm_eq _ _ (h.map _)]

/-- Witness for C3: swapping two parameters leaves the key unchanged. -/
theorem construct_unique_key_perm_invariant_witness :
    construct_unique_key "base" [("a", "1"), ("b", "2")] =
      construct_unique_key "base" [("b", "2"), ("a", "1")] :=
  construct_unique_key_perm_invariant "base" _ _ (by decide)

/-- C4 (counterexample): the claim that `construct_unique_key u` is
injective over parameter mappings fails: the mappings `{"a": "b_c"}`
and `{"a_b": "c"}` are not permutations of the same pairs, yet they
produce the identical key (both render to `"a_b_c"`). -/
theorem construct_unique_key_collision :
    construct_unique_key "u" [("a", "b_c")] =
      construct_unique_key "u" [("a_b", "c")] ∧
    ¬ ([(("a" : String), ("b_c" : String))].Perm [("a_b", "c")]) :=
  ⟨rfl, by decide⟩

/-- C4 (amended): for every base URL, `construct_unique_key u` is
injective up to permutation on parameter mappings whose keys and values
contain no underscore: if both mappings are underscore-free and the
keys agree, the mappings are permutations of the same key/value
pairs. -/
theorem construct_unique_key_inj (u : String)
    (P1 P2 : List (String × String)) (h1 : paramsUF P1) (h2 : paramsUF P2)
    (h : construct_unique_key u P1 = construct_unique_key u P2) :
    P1.Perm P2 := by
  have hd := congrArg String.data h
  unfold construct_unique_key at hd
  simp only [String.data_append, joinWith_data, List.append_assoc] at hd
  have hjn :
      jnChars ((List.insertionSort keyLe
          (P1.map (fun p => p.1 ++ "_" ++ p.2))).map String.data) =
      jnChars ((List.insertionSort keyLe
          (P2.map (fun p => p.1 ++ "_" ++ p.2))).map String.data) := by
    simpa using hd
  have hgood : ∀ (P : List (String × String)), paramsUF P →
      ∀ x ∈ (List.insertionSort keyLe
          (P.map (fun p => p.1 ++ "_" ++ p.2))).map String.data,
        goodChunk x := by
    intro P hP x hx
    obtain ⟨r, hr, rfl⟩ := List.mem_map.mp hx
    have hr' : r ∈ P.map (fun p => p.1 ++ "_" ++ p.2) :=
      (List.mem_insertionSort keyLe).mp hr
    obtain ⟨p, hp, rfl⟩ := List.mem_map.mp hr'
    exact render_goodChunk (hP p hp).1 (hP p hp).2
  have hsorted :
      (List.insertionSort keyLe (P1.map (fun p => p.1 ++ "_" ++ p.2))) =
      (List.insertionSort keyLe (P2.map (fun p => p.1 ++ "_" ++ p.2))) := by
    have hmap := jnChars_inj (hgood P1 h1) (hgood P2 h2) hjn
    exact List.map_injective_iff.mpr (fun a b hab => String.ext hab) hmap
  have hperm : (P1.map (fun p => p.1 ++ "_" ++ p.2)).Perm
      (P2.map (fun p => p.1 ++ "_" ++ p.2)) :=
    ((List.perm_insertionSort keyLe _).symm.trans (hsorted ▸
      (List.perm_insertionSort keyLe _)))
  exact perm_of_render_perm P1 P2 h1 h2 hperm

/-- Witness for C4 (amended): two underscore-free mappings with equal
keys are recovered as permutations of one another. -/
theorem construct_unique_key_inj_witness :
    ([(("x" : String), ("1" : String)), ("y", "2")]).Perm
      [("y", "2"), ("x", "1")] :=
  construct_unique_key_inj "base" _ _ (by decide) (by decide) (by decide)

/-- C5: saving a store that is a JSON object and loading it back yields
the same store (the save/load round trip). -/
theorem save_cache_open_cache_roundtrip (kvs : List (String × JVal)) :
    open_cache (save_cache (JVal.obj kvs)) = JVal.obj kvs := rfl

/-- C6: `get_nearby_places` keyed by the site's zipcode never writes the
store back to disk: in both the hit and the miss branch the disk state
after the call is the input disk state and zero disk writes occur; on a
miss the fetched result is inserted, keyed by the zipcode, only into
the in-memory copy of the store. -/
theorem get_nearby_places_no_disk_write (zip apiKey : String)
    (net : String → List (String × JVal) → JVal) (d : DiskFile)
    (kvs : List (String × JVal)) (hload : open_cache d = JVal.obj kvs) :
    (objMem zip kvs = true →
      get_nearby_places zip apiKey net d =
        .ok ⟨objGetD zip kvs, .obj kvs, d, [], 1, 0⟩) ∧
    (objMem zip kvs = false →
      get_nearby_places zip apiKey net d =
        .ok ⟨net MAPQUEST_URL (placesParams apiKey zip),
             .obj (objInsert zip (net MAPQUEST_URL (placesParams apiKey zip)) kvs),
             d, [(MAPQUEST_URL, placesParams apiKey zip)], 1, 0⟩) := by
  constructor
  · intro hmem
    rw [get_nearby_places, hload]
    simp [hmem]
  · intro hmem
    rw [get_nearby_places, hload]
    simp [hmem]

/-- Witness for C6: a miss on the empty disk store fetches once, keeps
the entry in memory only, and leaves the disk state unchanged. -/
theorem get_nearby_places_no_disk_write_witness :
    get_nearby_places "49931" "KEY" (fun _ _ => JVal.arr [])
        (DiskFile.stored (.obj [])) =
      .ok ⟨JVal.arr [], .obj [("49931", JVal.arr [])],
           DiskFile.stored (.obj []),
           [(MAPQUEST_URL, placesParams "KEY" "49931")], 1, 0⟩ := by
  have h := (get_nearby_places_no_disk_write "49931" "KEY"
    (fun _ _ => JVal.arr []) (DiskFile.stored (.obj [])) [] rfl).2 rfl
  simpa [objInsert, objMem] using h

/-- C7: `construct_unique_key` coincides with the specification's
reference key construction `buildKeySpec` on every base URL and
parameter mapping. -/
theorem construct_unique_key_refines_spec (u : String)
    (P : List (String × String)) :
    construct_unique_key u P = buildKeySpec u P := rfl

/-- C8: on a cache hit `make_request_with_cache` performs one disk read
and zero disk writes and leaves the on-disk file unchanged; whenever a
call performs a disk write at all, the key was a miss. -/
theorem make_request_with_cache_hit_frame (u : String)
    (net : String → String) (d : DiskFile) (kvs : List (String × JVal))
    (hload : open_cache d = JVal.obj kvs) :
    (objMem u kvs = true →
      ∃ r, make_request_with_cache u net d = .ok r ∧
        r.disk = d ∧ r.diskReads = 1 ∧ r.diskWrites = 0) ∧
    (∀ r, make_request_with_cache u net d = .ok r → r.diskWrites ≠ 0 →
      objMem u kvs = false) := by
  constructor
  · intro hmem
    refine ⟨⟨objGetD u kvs, d, [], 1, 0⟩, ?_, rfl, rfl, rfl⟩
    rw [make_request_with_cache, hload]
    simp [hmem]
  · intro r hr hw
    cases hmem : objMem u kvs with
    | false => rfl
    | true =>
      rw [make_request_with_cache, hload] at hr
      simp [hmem] at hr
      rw [← hr] at hw
      exact absurd rfl hw

/-- Witness for C8: a hit on a one-entry store reads once, writes
nothing, and leaves the disk state as it was. -/
theorem make_request_with_cache_hit_frame_witness :
    ∃ r, make_request_with_cache "u" (fun _ => "OTHER")
        (DiskFile.stored (.obj [("u", JVal.str "BODY")])) = .ok r ∧
      r.disk = DiskFile.stored (.obj [("u", JVal.str "BODY")]) ∧
      r.diskReads = 1 ∧ r.diskWrites = 0 :=
  (make_request_with_cache_hit_frame "u" (fun _ => "OTHER")
    (DiskFile.stored (.obj [("u", JVal.str "BODY")]))
    [("u", JVal.str "BODY")] rfl).1 (by decide)

/-- C9 (failing input): in the interactive loop, entering `"exit"` at
the state prompt terminates the program, but after selecting a state,
entering `"exit"` at the site-selection prompt does not terminate: the
`temp = 1` flag it sets is never read, so control returns to the state
prompt (the same behavior as `"back"`), awaiting further input. -/
theorem cli_exit_at_site_prompt_does_not_terminate :
    runCLI envEx CLIMode.stateSel ["exit"] = (none, []) ∧
    runCLI envEx CLIMode.stateSel ["michigan", "exit"] =
      (some CLIMode.stateSel,
       [CLIEvent.listedSites "https://www.nps.gov/state/mi/index.htm"]) :=
  ⟨rfl, rfl⟩

/-- C10: when the cache file holds syntactically valid JSON whose top
level is not an object, `open_cache` returns that non-mapping value
unchanged rather than an empty store, and a subsequent
`make_request_with_cache` call raises (the `.keys()` attribute access
assumes a dict). -/
theorem open_cache_non_object (v : JVal) (u : String)
    (net : String → String) (hv : v.isObj = false) :
    open_cache (DiskFile.stored v) = v ∧
    ∃ e, make_request_with_cache u net (DiskFile.stored v) = .error e := by
  refine ⟨rfl, ?_⟩
  cases v with
  | obj kvs => simp [JVal.isObj] at hv
  | str s => exact ⟨_, rfl⟩
  | num n => exact ⟨_, rfl⟩
  | bool b => exact ⟨_, rfl⟩
  | null => exact ⟨_, rfl⟩
  | arr elems => exact ⟨_, rfl⟩

/-- Witness for C10: a cache file holding the JSON array `[]` is
returned unchanged by `open_cache`, and `make_request_with_cache` on it
raises. -/
theorem open_cache_non_object_witness :
    open_cache (DiskFile.stored (JVal.arr [])) = JVal.arr [] ∧
    ∃ e, make_request_with_cache "u" (fun _ => "BODY")
        (DiskFile.stored (JVal.arr [])) = .error e :=
  open_cache_non_object (JVal.arr []) "u" (fun _ => "BODY") rfl

end NPS
